import Mathlib

/-!
Verification of the `.enex` streaming parser (`src/enex.rs`).

The parser consumes a stream of XML pull events and yields `Note` records.
We shallowly embed the code: the xml-rs event stream is a `List XmlEvent`;
each `EnexReader` method becomes a function from the remaining event list to
a result paired with the advanced remaining list (mirroring the destructive
cursor).  An exhausted stream is a lexical error (`Error.xml`), as xml-rs
reports premature end of input as an error.

`DateTime<Local>` values are modelled by the instant they denote, as seconds
since the Unix epoch (an `Int`): `with_timezone(&Local)` changes only the
representation, never the instant, and chrono's `PartialEq` on `DateTime`
compares instants.  The external chrono call
`DateTime::parse_from_str(text, "%Y%m%dT%H%M%S%#z")` is modelled by
`parseEnexDatetime` below, following chrono's documented behaviour for this
format string (leap seconds and signed years are not modelled; no claim
exercises them).
-/

namespace Enex2mf

/-- The xml-rs pull events relevant to the parser (`XmlEvent` in the code).
Element names are the `local_name` the code matches on. -/
inductive XmlEvent where
  | startDocument
  | endDocument
  | startElement (name : String)
  | endElement (name : String)
  | characters (text : String)
deriving DecidableEq, Repr, BEq

/-- The error type of `src/error.rs`, with payloads the claims do not
inspect (io/xml/chrono library errors) collapsed:  `xml` stands for any
`Error::Xml` (here: reading past the end of the event list), `chrono` for
`Error::Chrono` (timestamp parse failure). -/
inductive Error where
  | xml
  | chrono
  | unexpectedElement (tag : String)
  | unexpectedEvent (ctx : String) (e : XmlEvent)
deriving DecidableEq, Repr

instance {ε α : Type} [DecidableEq ε] [DecidableEq α] : DecidableEq (Except ε α) := fun a b =>
  match a, b with
  | .ok x, .ok y =>
    if h : x = y then .isTrue (by rw [h]) else .isFalse (by simp [h])
  | .error x, .error y =>
    if h : x = y then .isTrue (by rw [h]) else .isFalse (by simp [h])
  | .ok _, .error _ => .isFalse (by simp)
  | .error _, .ok _ => .isFalse (by simp)

/-- `NoteAttributes` from `src/enex.rs` (all fields optional strings). -/
structure NoteAttributes where
  author : Option String
  source_url : Option String
  source : Option String
  latitude : Option String
  longitude : Option String
  altitude : Option String
deriving DecidableEq, Repr

/-- `NoteAttributes::default()`: every field absent. -/
def NoteAttributes.default : NoteAttributes :=
  ⟨none, none, none, none, none, none⟩

/-- `Note` from `src/enex.rs`; `created`/`updated` hold the instant of the
parsed `DateTime<Local>` (seconds since epoch). -/
structure Note where
  title : Option String
  content : Option String
  created : Option Int
  updated : Option Int
  tags : List String
  attributes : NoteAttributes
deriving DecidableEq, Repr

/-- `Note::default()`: empty record. -/
def Note.default : Note :=
  ⟨none, none, none, none, [], NoteAttributes.default⟩

/-!
## Low-level cursor (`EnexReader`)

Each method takes the remaining event list and returns its result together
with the list after the events it consumed (also on error: the offending
event has been consumed, exactly as the Rust reader's cursor has advanced).
-/

/-- `EnexReader::consume_start_document`. -/
def consumeStartDocument : List XmlEvent → Except Error Unit × List XmlEvent
  | [] => (.error .xml, [])
  | e :: rest =>
    match e with
    | .startDocument => (.ok (), rest)
    | _ => (.error (.unexpectedEvent "expected document start" e), rest)

/-- `EnexReader::consume_end_document`. -/
def consumeEndDocument : List XmlEvent → Except Error Unit × List XmlEvent
  | [] => (.error .xml, [])
  | e :: rest =>
    match e with
    | .endDocument => (.ok (), rest)
    | _ => (.error (.unexpectedEvent "expected document end" e), rest)

/-- `EnexReader::consume_start_element`. -/
def consumeStartElement (startTag : String) :
    List XmlEvent → Except Error Unit × List XmlEvent
  | [] => (.error .xml, [])
  | e :: rest =>
    match e with
    | .startElement name =>
      if name = startTag then (.ok (), rest)
      else (.error (.unexpectedEvent ("expected <" ++ startTag ++ ">") e), rest)
    | _ => (.error (.unexpectedEvent ("expected <" ++ startTag ++ ">") e), rest)

/-- `EnexReader::read_start_element_until_enclosing`: `some tag` for
`<tag>`, `none` for the matching `</endTag>`, otherwise a structural
error. -/
def readStartElementUntilEnclosing (endTag : String) :
    List XmlEvent → Except Error (Option String) × List XmlEvent
  | [] => (.error .xml, [])
  | e :: rest =>
    match e with
    | .startElement name => (.ok (some name), rest)
    | .endElement name =>
      if name = endTag then (.ok none, rest)
      else (.error (.unexpectedEvent ("in <" ++ endTag ++ ">") e), rest)
    | _ => (.error (.unexpectedEvent ("in <" ++ endTag ++ ">") e), rest)

/-- `EnexReader::read_text_until_enclosing`: accumulate consecutive
`Characters` events until the matching close; `none` when the close comes
first (empty element). -/
def readTextUntilEnclosing (endTag : String) :
    List XmlEvent → Except Error (Option String) × List XmlEvent
  | [] => (.error .xml, [])
  | e :: rest =>
    match e with
    | .characters text =>
      match readTextUntilEnclosing endTag rest with
      | (.ok (some more), rest2) => (.ok (some (text ++ more)), rest2)
      | (.ok none, rest2) => (.ok (some text), rest2)
      | (.error err, rest2) => (.error err, rest2)
    | .endElement name =>
      if name = endTag then (.ok none, rest)
      else (.error (.unexpectedEvent "expected text" e), rest)
    | _ => (.error (.unexpectedEvent "expected text" e), rest)

/-- `EnexReader::consume_resource`: discard events until the first
`EndElement` whose name is `resource` (no depth counting). -/
def consumeResource : List XmlEvent → Except Error Unit × List XmlEvent
  | [] => (.error .xml, [])
  | e :: rest =>
    match e with
    | .endElement name =>
      if name = "resource" then (.ok (), rest) else consumeResource rest
    | _ => consumeResource rest

/-!
## Timestamp parsing (model of the chrono library call)

`parseEnexDatetime` models
`DateTime::parse_from_str(text, "%Y%m%dT%H%M%S%#z").with_timezone(&Local)`:
up to four digits of year, up to two each of month/day, a literal `T`, up to
two digits each of hour/minute/second, then a timezone offset (`Z`/`z`, or a
sign, two hour digits and optional minutes with optional colon), with
nothing left over; the field values must form a real calendar date-time.
The result is the denoted instant in seconds since the Unix epoch.
-/

/-- Numeric value of a digit string. -/
def digitsToNat (cs : List Char) : Nat :=
  cs.foldl (fun a c => a * 10 + (c.toNat - 48)) 0

/-- Take between 1 and `maxN` leading digits; `none` if there is no leading
digit. -/
def takeDigits (maxN : Nat) (cs : List Char) : Option (Nat × List Char) :=
  let ds := (cs.take maxN).takeWhile Char.isDigit
  if ds.isEmpty then none else some (digitsToNat ds, cs.drop ds.length)

def isLeapYear (y : Nat) : Bool :=
  y % 4 = 0 && (y % 100 ≠ 0 || y % 400 = 0)

def daysInMonth (y mo : Nat) : Nat :=
  if mo = 2 then (if isLeapYear y then 29 else 28)
  else if mo = 4 || mo = 6 || mo = 9 || mo = 11 then 30
  else 31

/-- Days from 1970-01-01 to the given civil date (proleptic Gregorian). -/
def daysFromCivil (y : Int) (mo d : Nat) : Int :=
  let yy : Int := if mo ≤ 2 then y - 1 else y
  let era : Int := (if 0 ≤ yy then yy else yy - 399) / 400
  let yoe : Int := yy - era * 400
  let mp : Int := ((mo : Int) + 9) % 12
  let doy : Int := (153 * mp + 2) / 5 + (d : Int) - 1
  let doe : Int := yoe * 365 + yoe / 4 - yoe / 100 + doy
  era * 146097 + doe - 719468

/-- The instant of a UTC civil date-time, as seconds since the epoch. -/
def utcInstant (y : Int) (mo d h mi s : Nat) : Int :=
  daysFromCivil y mo d * 86400 + (h : Int) * 3600 + (mi : Int) * 60 + (s : Int)

/-- Parse a timezone offset for `%#z`: `Z`/`z`, or sign and hours with
optional (possibly colon-separated) minutes.  Returns the offset in
seconds. -/
def parseOffset : List Char → Option (Int × List Char)
  | [] => none
  | c :: rest =>
    if c = 'Z' || c = 'z' then some (0, rest)
    else if c = '+' || c = '-' then
      match takeDigits 2 rest with
      | some (hh, rest2) =>
        match rest2 with
        | ':' :: rest3 =>
          match takeDigits 2 rest3 with
          | some (mm, rest4) =>
            let mag : Int := (hh * 3600 + mm * 60 : Nat)
            some (if c = '-' then -mag else mag, rest4)
          | none => none
        | _ =>
          match takeDigits 2 rest2 with
          | some (mm, rest4) =>
            let mag : Int := (hh * 3600 + mm * 60 : Nat)
            some (if c = '-' then -mag else mag, rest4)
          | none =>
            let mag : Int := (hh * 3600 : Nat)
            some (if c = '-' then -mag else mag, rest2)
      | none => none
    else none

/-- Model of `DateTime::parse_from_str(text, "%Y%m%dT%H%M%S%#z")`: the
parsed instant, or `Error.chrono` when the text does not match the
grammar. -/
def parseEnexDatetime (s : String) : Except Error Int :=
  match takeDigits 4 s.data with
  | none => .error .chrono
  | some (y, cs1) =>
    match takeDigits 2 cs1 with
    | none => .error .chrono
    | some (mo, cs2) =>
      match takeDigits 2 cs2 with
      | none => .error .chrono
      | some (d, cs3) =>
        match cs3 with
        | 'T' :: cs4 =>
          match takeDigits 2 cs4 with
          | none => .error .chrono
          | some (h, cs5) =>
            match takeDigits 2 cs5 with
            | none => .error .chrono
            | some (mi, cs6) =>
              match takeDigits 2 cs6 with
              | none => .error .chrono
              | some (sec, cs7) =>
                match parseOffset cs7 with
                | some (off, []) =>
                  if 1 ≤ mo && mo ≤ 12 && 1 ≤ d && d ≤ daysInMonth y mo
                      && h ≤ 23 && mi ≤ 59 && sec ≤ 59 then
                    .ok (utcInstant (y : Int) mo d h mi sec - off)
                  else .error .chrono
                | _ => .error .chrono
        | _ => .error .chrono

/-- `true` iff `parseEnexDatetime` succeeds. -/
def parseOk (s : String) : Bool :=
  match parseEnexDatetime s with
  | .ok _ => true
  | .error _ => false

/-- `EnexReader::read_datetime_until_enclosing`: read the element text,
default a missing body to the empty string, and parse it as a timestamp. -/
def readDatetimeUntilEnclosing (endTag : String) (l : List XmlEvent) :
    Except Error (Option Int) × List XmlEvent :=
  match readTextUntilEnclosing endTag l with
  | (.ok t, rest) =>
    match parseEnexDatetime (t.getD "") with
    | .ok dt => (.ok (some dt), rest)
    | .error e => (.error e, rest)
  | (.error e, rest) => (.error e, rest)

/-!
## Length facts about the cursor primitives

Each primitive returns a suffix of its input; these bounds justify the
termination of the `read_note` / `read_note_attributes` loops below.
-/

theorem readTextUntilEnclosing_len (endTag : String) (l : List XmlEvent) :
    (readTextUntilEnclosing endTag l).2.length ≤ l.length := by
  induction l with
  | nil => simp [readTextUntilEnclosing]
  | cons e rest ih =>
    cases e with
    | characters text =>
      simp only [readTextUntilEnclosing]
      rcases h : readTextUntilEnclosing endTag rest with ⟨res, rest2⟩
      rw [h] at ih
      rcases res with x | x
      · simpa using Nat.le_succ_of_le ih
      · rcases x with _ | m <;> simpa using Nat.le_succ_of_le ih
    | endElement name =>
      by_cases hn : name = endTag <;>
        simp [readTextUntilEnclosing, hn, Nat.le_succ_of_le]
    | startDocument => simp [readTextUntilEnclosing]
    | endDocument => simp [readTextUntilEnclosing]
    | startElement name => simp [readTextUntilEnclosing]

theorem readDatetimeUntilEnclosing_len (endTag : String) (l : List XmlEvent) :
    (readDatetimeUntilEnclosing endTag l).2.length ≤ l.length := by
  rw [readDatetimeUntilEnclosing]
  split
  next t rest h =>
    have hlen := readTextUntilEnclosing_len endTag l
    rw [h] at hlen
    split <;> simpa using hlen
  next e rest h =>
    have hlen := readTextUntilEnclosing_len endTag l
    rw [h] at hlen
    simpa using hlen

theorem consumeResource_len (l : List XmlEvent) :
    (consumeResource l).2.length ≤ l.length := by
  induction l with
  | nil => simp [consumeResource]
  | cons e rest ih =>
    cases e with
    | endElement name =>
      by_cases hn : name = "resource" <;>
        simp [consumeResource, hn, Nat.le_succ_of_le ih, Nat.le_succ]
    | startDocument => simpa [consumeResource] using Nat.le_succ_of_le ih
    | endDocument => simpa [consumeResource] using Nat.le_succ_of_le ih
    | startElement name => simpa [consumeResource] using Nat.le_succ_of_le ih
    | characters text => simpa [consumeResource] using Nat.le_succ_of_le ih

/-!
## The record state machine (`EnexParser`)
-/

/-- The body of `EnexParser::read_note_attributes`: loop over child
elements of `<note-attributes>`, assigning each recognized field from its
element text, until the matching close. -/
def readNoteAttributesLoop (attrs : NoteAttributes) :
    List XmlEvent → Except Error NoteAttributes × List XmlEvent
  | [] => (.error .xml, [])
  | e :: rest =>
    match e with
    | .startElement tag =>
      if tag = "author" then
        match h : readTextUntilEnclosing tag rest with
        | (.ok v, rest2) => readNoteAttributesLoop { attrs with author := v } rest2
        | (.error err, rest2) => (.error err, rest2)
      else if tag = "source" then
        match h : readTextUntilEnclosing tag rest with
        | (.ok v, rest2) => readNoteAttributesLoop { attrs with source := v } rest2
        | (.error err, rest2) => (.error err, rest2)
      else if tag = "source-url" then
        match h : readTextUntilEnclosing tag rest with
        | (.ok v, rest2) => readNoteAttributesLoop { attrs with source_url := v } rest2
        | (.error err, rest2) => (.error err, rest2)
      else if tag = "latitude" then
        match h : readTextUntilEnclosing tag rest with
        | (.ok v, rest2) => readNoteAttributesLoop { attrs with latitude := v } rest2
        | (.error err, rest2) => (.error err, rest2)
      else if tag = "longitude" then
        match h : readTextUntilEnclosing tag rest with
        | (.ok v, rest2) => readNoteAttributesLoop { attrs with longitude := v } rest2
        | (.error err, rest2) => (.error err, rest2)
      else if tag = "altitude" then
        match h : readTextUntilEnclosing tag rest with
        | (.ok v, rest2) => readNoteAttributesLoop { attrs with altitude := v } rest2
        | (.error err, rest2) => (.error err, rest2)
      else (.error (.unexpectedElement tag), rest)
    | .endElement name =>
      if name = "note-attributes" then (.ok attrs, rest)
      else (.error (.unexpectedEvent "in <note-attributes>" e), rest)
    | _ => (.error (.unexpectedEvent "in <note-attributes>" e), rest)
termination_by l => l.length
decreasing_by
  all_goals
    simp only [List.length_cons]
    have hl := readTextUntilEnclosing_len tag rest
    rw [h] at hl
    exact Nat.lt_succ_of_le hl

theorem readNoteAttributesLoop_len (attrs : NoteAttributes) (l : List XmlEvent) :
    (readNoteAttributesLoop attrs l).2.length ≤ l.length := by
  suffices h : ∀ n (attrs : NoteAttributes) (l : List XmlEvent), l.length = n →
      (readNoteAttributesLoop attrs l).2.length ≤ l.length from h l.length attrs l rfl
  intro n
  induction n using Nat.strong_induction_on with
  | _ n ih =>
    intro attrs l hl
    rw [readNoteAttributesLoop.eq_def]
    split
    · simp
    next e rest =>
      simp only [List.length_cons] at hl
      split
      case h_1 tag =>
        have hlen := readTextUntilEnclosing_len tag rest
        split_ifs <;>
          first
          | (split
             all_goals rename_i w rest2 hrt
             all_goals rw [hrt] at hlen
             all_goals simp only at hlen
             · exact le_trans (ih rest2.length (by omega) _ rest2 rfl)
                 (by simp only [List.length_cons]; omega)
             · simp only [List.length_cons]; omega)
          | simp
      case h_2 name => split_ifs <;> simp
      case h_3 => simp

/-- `EnexParser::read_note_attributes` (starts from the default record). -/
def readNoteAttributes (l : List XmlEvent) :
    Except Error NoteAttributes × List XmlEvent :=
  readNoteAttributesLoop NoteAttributes.default l

/-- The body of `EnexParser::read_note`: loop over child elements of
`<note>`, handling each recognized tag, until the matching close. -/
def readNoteLoop (note : Note) :
    List XmlEvent → Except Error Note × List XmlEvent
  | [] => (.error .xml, [])
  | e :: rest =>
    match e with
    | .startElement tag =>
      if tag = "title" then
        match h : readTextUntilEnclosing tag rest with
        | (.ok v, rest2) => readNoteLoop { note with title := v } rest2
        | (.error err, rest2) => (.error err, rest2)
      else if tag = "content" then
        match h : readTextUntilEnclosing tag rest with
        | (.ok v, rest2) => readNoteLoop { note with content := v } rest2
        | (.error err, rest2) => (.error err, rest2)
      else if tag = "created" then
        match h : readDatetimeUntilEnclosing tag rest with
        | (.ok v, rest2) => readNoteLoop { note with created := v } rest2
        | (.error err, rest2) => (.error err, rest2)
      else if tag = "updated" then
        match h : readDatetimeUntilEnclosing tag rest with
        | (.ok v, rest2) => readNoteLoop { note with updated := v } rest2
        | (.error err, rest2) => (.error err, rest2)
      else if tag = "tag" then
        match h : readTextUntilEnclosing tag rest with
        | (.ok v, rest2) => readNoteLoop { note with tags := note.tags ++ v.toList } rest2
        | (.error err, rest2) => (.error err, rest2)
      else if tag = "note-attributes" then
        match h : readNoteAttributesLoop NoteAttributes.default rest with
        | (.ok a, rest2) => readNoteLoop { note with attributes := a } rest2
        | (.error err, rest2) => (.error err, rest2)
      else if tag = "resource" then
        match h : consumeResource rest with
        | (.ok _, rest2) => readNoteLoop note rest2
        | (.error err, rest2) => (.error err, rest2)
      else (.error (.unexpectedElement tag), rest)
    | .endElement name =>
      if name = "note" then (.ok note, rest)
      else (.error (.unexpectedEvent "in <note>" e), rest)
    | _ => (.error (.unexpectedEvent "in <note>" e), rest)
termination_by l => l.length
decreasing_by
  · simp only [List.length_cons]
    have hl := readTextUntilEnclosing_len tag rest
    rw [h] at hl
    exact Nat.lt_succ_of_le hl
  · simp only [List.length_cons]
    have hl := readTextUntilEnclosing_len tag rest
    rw [h] at hl
    exact Nat.lt_succ_of_le hl
  · simp only [List.length_cons]
    have hl := readDatetimeUntilEnclosing_len tag rest
    rw [h] at hl
    exact Nat.lt_succ_of_le hl
  · simp only [List.length_cons]
    have hl := readDatetimeUntilEnclosing_len tag rest
    rw [h] at hl
    exact Nat.lt_succ_of_le hl
  · simp only [List.length_cons]
    have hl := readTextUntilEnclosing_len tag rest
    rw [h] at hl
    exact Nat.lt_succ_of_le hl
  · simp only [List.length_cons]
    have hl := readNoteAttributesLoop_len NoteAttributes.default rest
    rw [h] at hl
    exact Nat.lt_succ_of_le hl
  · simp only [List.length_cons]
    have hl := consumeResource_len rest
    rw [h] at hl
    exact Nat.lt_succ_of_le hl

/-- `EnexParser::read_note` (starts from the default record). -/
def readNote (l : List XmlEvent) : Except Error Note × List XmlEvent :=
  readNoteLoop Note.default l

/-- The states of `EnexParser` (`EnexParserState` in the code). -/
inductive EnexParserState where
  | initial
  | enExport
  | done
deriving DecidableEq, Repr

/-- The `EnexParserState::EnExport` arm of `EnexParser::next_helper`:
read the next child of `<en-export>`; a `<note>` is parsed and yielded, the
matching close leads to the document end and the terminal state, anything
else is an error.  Returns the result, the state after the call, and the
remaining events. -/
def nextHelperEnExport (l : List XmlEvent) :
    Except Error (Option Note) × EnexParserState × List XmlEvent :=
  match readStartElementUntilEnclosing "en-export" l with
  | (.ok (some tag), l1) =>
    if tag = "note" then
      match readNote l1 with
      | (.ok n, l2) => (.ok (some n), .enExport, l2)
      | (.error e, l2) => (.error e, .enExport, l2)
    else (.error (.unexpectedElement tag), .enExport, l1)
  | (.ok none, l1) =>
    match consumeEndDocument l1 with
    | (.ok _, l2) => (.ok none, .done, l2)
    | (.error e, l2) => (.error e, .enExport, l2)
  | (.error e, l1) => (.error e, .enExport, l1)

/-- `EnexParser::next_helper`: the state machine step.  In `Initial` the
document start and `<en-export>` open are consumed and the machine falls
through (the Rust `loop`) to the `EnExport` arm; `Done` is terminal and
re-entrant.  As in the code, the state is only updated at the points where
`self.state` is assigned, so an error leaves the machine in the state those
assignments have reached. -/
def nextHelper : EnexParserState → List XmlEvent →
    Except Error (Option Note) × EnexParserState × List XmlEvent
  | .initial, l =>
    (match consumeStartDocument l with
     | (.ok _, l1) =>
       match consumeStartElement "en-export" l1 with
       | (.ok _, l2) => nextHelperEnExport l2
       | (.error e, l2) => (.error e, .initial, l2)
     | (.error e, l1) => (.error e, .initial, l1))
  | .enExport, l => nextHelperEnExport l
  | .done, l => (.ok none, .done, l)

/-- The parser value: current state plus the remaining event stream (the
destructively consumed xml-rs reader). -/
structure EnexParser where
  state : EnexParserState
  events : List XmlEvent
deriving DecidableEq, Repr

/-- `Iterator::next` for `EnexParser`: translate `next_helper`'s
`Result<Option<Note>>` into `Option<Result<Note>>`. -/
def EnexParser.next (p : EnexParser) : Option (Except Error Note) × EnexParser :=
  match nextHelper p.state p.events with
  | (.ok (some n), s, l) => (some (.ok n), ⟨s, l⟩)
  | (.ok none, s, l) => (none, ⟨s, l⟩)
  | (.error e, s, l) => (some (.error e), ⟨s, l⟩)

/-- The first `k` results of repeatedly calling `next`. -/
def nexts (p : EnexParser) : Nat → List (Option (Except Error Note))
  | 0 => []
  | k + 1 => (p.next).1 :: nexts (p.next).2 k

/-!
## Abstract documents

To quantify over "every valid input document" we describe a document by the
abstract content of its note elements and generate the event stream from
it.  Element text is a list of `Characters` fragments (the tokenizer may
split text).
-/

/-- The concatenation, in order, of the text fragments of one element;
`none` when there are none (the element is empty). -/
def textValue : List String → Option String
  | [] => none
  | t :: ts =>
    some (match textValue ts with
          | some more => t ++ more
          | none => t)

/-- One child element of `<note-attributes>`. -/
inductive AttrItem where
  | author (texts : List String)
  | source (texts : List String)
  | sourceUrl (texts : List String)
  | latitude (texts : List String)
  | longitude (texts : List String)
  | altitude (texts : List String)
deriving DecidableEq, Repr

/-- The tag name of an attribute child element. -/
def attrTag : AttrItem → String
  | .author _ => "author"
  | .source _ => "source"
  | .sourceUrl _ => "source-url"
  | .latitude _ => "latitude"
  | .longitude _ => "longitude"
  | .altitude _ => "altitude"

/-- The text fragments of an attribute child element. -/
def attrTexts : AttrItem → List String
  | .author ts => ts
  | .source ts => ts
  | .sourceUrl ts => ts
  | .latitude ts => ts
  | .longitude ts => ts
  | .altitude ts => ts

/-- The events of one attribute child element. -/
def attrItemEvents (it : AttrItem) : List XmlEvent :=
  XmlEvent.startElement (attrTag it) ::
    (attrTexts it).map XmlEvent.characters ++ [XmlEvent.endElement (attrTag it)]

/-- One child element of `<note>`.  A `resource` carries its raw inner
events (its payload is opaque to the parser). -/
inductive NoteItem where
  | title (texts : List String)
  | content (texts : List String)
  | created (texts : List String)
  | updated (texts : List String)
  | tag (texts : List String)
  | attrs (items : List AttrItem)
  | resource (payload : List XmlEvent)
deriving DecidableEq, Repr

/-- The events of one child element of `<note>`. -/
def noteItemEvents : NoteItem → List XmlEvent
  | .title ts => .startElement "title" :: ts.map .characters ++ [.endElement "title"]
  | .content ts => .startElement "content" :: ts.map .characters ++ [.endElement "content"]
  | .created ts => .startElement "created" :: ts.map .characters ++ [.endElement "created"]
  | .updated ts => .startElement "updated" :: ts.map .characters ++ [.endElement "updated"]
  | .tag ts => .startElement "tag" :: ts.map .characters ++ [.endElement "tag"]
  | .attrs its =>
    .startElement "note-attributes" ::
      its.flatMap attrItemEvents ++ [.endElement "note-attributes"]
  | .resource payload =>
    .startElement "resource" :: payload ++ [.endElement "resource"]

/-- The events of one `<note>` element. -/
def noteEvents (items : List NoteItem) : List XmlEvent :=
  XmlEvent.startElement "note" ::
    items.flatMap noteItemEvents ++ [XmlEvent.endElement "note"]

/-- The events of a whole document whose notes have the given bodies. -/
def docEvents (notes : List (List NoteItem)) : List XmlEvent :=
  XmlEvent.startDocument :: XmlEvent.startElement "en-export" ::
    notes.flatMap noteEvents ++ [XmlEvent.endElement "en-export", XmlEvent.endDocument]

/-!
## Expected record values

`applyAttrItem` / `applyItem` restate the assignment a single loop
iteration of `read_note_attributes` / `read_note` performs, so the record a
note yields is a left fold over its child elements.
-/

def applyAttrItem (a : NoteAttributes) : AttrItem → NoteAttributes
  | .author ts => { a with author := textValue ts }
  | .source ts => { a with source := textValue ts }
  | .sourceUrl ts => { a with source_url := textValue ts }
  | .latitude ts => { a with latitude := textValue ts }
  | .longitude ts => { a with longitude := textValue ts }
  | .altitude ts => { a with altitude := textValue ts }

/-- The attributes value a `<note-attributes>` block parses to. -/
def attrsValue (items : List AttrItem) : NoteAttributes :=
  items.foldl applyAttrItem NoteAttributes.default

def applyItem (n : Note) : NoteItem → Note
  | .title ts => { n with title := textValue ts }
  | .content ts => { n with content := textValue ts }
  | .created ts => { n with created := (parseEnexDatetime ((textValue ts).getD "")).toOption }
  | .updated ts => { n with updated := (parseEnexDatetime ((textValue ts).getD "")).toOption }
  | .tag ts => { n with tags := n.tags ++ (textValue ts).toList }
  | .attrs its => { n with attributes := attrsValue its }
  | .resource _ => n

/-- The record a note with the given body parses to. -/
def noteValue (items : List NoteItem) : Note :=
  items.foldl applyItem Note.default

/-!
## Validity

A generated document is valid when every timestamp element parses and no
resource payload contains a close named `resource` (the document grammar
nests resource content under other tag names).
-/

/-- Whether an event is an element close named `resource` (the one event
`consume_resource` stops at). -/
def isResourceClose : XmlEvent → Bool
  | .endElement name => name = "resource"
  | _ => false

def validNoteItem : NoteItem → Bool
  | .created ts => parseOk ((textValue ts).getD "")
  | .updated ts => parseOk ((textValue ts).getD "")
  | .resource payload => payload.all fun e => !isResourceClose e
  | _ => true

def validItems (items : List NoteItem) : Bool :=
  items.all validNoteItem

/-- Whether a note child element assigns the `title` field. -/
def setsTitle : NoteItem → Bool
  | .title _ => true
  | _ => false

/-- Whether a note child element assigns the `content` field. -/
def setsContent : NoteItem → Bool
  | .content _ => true
  | _ => false

/-- Whether a note child element assigns the `created` field. -/
def setsCreated : NoteItem → Bool
  | .created _ => true
  | _ => false

/-- Whether a note child element assigns the `updated` field. -/
def setsUpdated : NoteItem → Bool
  | .updated _ => true
  | _ => false

/-- Whether a note child element assigns the `attributes` field. -/
def setsAttrs : NoteItem → Bool
  | .attrs _ => true
  | _ => false

/-- The tags a note body contributes, in document order: the text of each
non-empty `tag` element (duplicates kept). -/
def tagTexts : List NoteItem → List String
  | [] => []
  | .tag ts :: rest => (textValue ts).toList ++ tagTexts rest
  | _ :: rest => tagTexts rest

/-!
## Behaviour of the cursor primitives on generated events
-/

theorem readTextUntilEnclosing_spec (tag : String) (ts : List String)
    (rest : List XmlEvent) :
    readTextUntilEnclosing tag (ts.map XmlEvent.characters ++ XmlEvent.endElement tag :: rest)
      = (.ok (textValue ts), rest) := by
  induction ts with
  | nil => simp [readTextUntilEnclosing, textValue]
  | cons t ts ih =>
    cases htv : textValue ts <;>
      simp [readTextUntilEnclosing, textValue, ih, htv]

theorem readTextUntilEnclosing_err (tag : String) (ts : List String) (e : XmlEvent)
    (l2 : List XmlEvent) (hc : ∀ s, e ≠ XmlEvent.characters s)
    (he : e ≠ XmlEvent.endElement tag) :
    readTextUntilEnclosing tag (ts.map XmlEvent.characters ++ e :: l2)
      = (.error (.unexpectedEvent "expected text" e), l2) := by
  induction ts with
  | nil =>
    cases e with
    | characters s => exact absurd rfl (hc s)
    | endElement name =>
      have hne : ¬ name = tag := fun h => he (by rw [h])
      simp [readTextUntilEnclosing, hne]
    | startDocument => simp [readTextUntilEnclosing]
    | endDocument => simp [readTextUntilEnclosing]
    | startElement name => simp [readTextUntilEnclosing]
  | cons t ts ih => simp [readTextUntilEnclosing, ih]

theorem parseOk_exists {s : String} (h : parseOk s = true) :
    ∃ v, parseEnexDatetime s = .ok v := by
  unfold parseOk at h
  split at h
  next v hv => exact ⟨v, hv⟩
  next => simp at h

theorem consumeResource_spec (payload rest : List XmlEvent)
    (h : payload.all (fun e => !isResourceClose e) = true) :
    consumeResource (payload ++ XmlEvent.endElement "resource" :: rest) = (.ok (), rest) := by
  induction payload with
  | nil => simp [consumeResource]
  | cons e payload ih =>
    simp only [List.all_cons, Bool.and_eq_true] at h
    cases e with
    | endElement name =>
      have hne : ¬ name = "resource" := by
        have := h.1
        simp [isResourceClose] at this
        exact this
      simp [consumeResource, hne, ih h.2]
    | startDocument => simp [consumeResource, ih h.2]
    | endDocument => simp [consumeResource, ih h.2]
    | startElement name => simp [consumeResource, ih h.2]
    | characters text => simp [consumeResource, ih h.2]

theorem readNoteAttributesLoop_spec (its : List AttrItem) (a : NoteAttributes)
    (rest : List XmlEvent) :
    readNoteAttributesLoop a
        (its.flatMap attrItemEvents ++ XmlEvent.endElement "note-attributes" :: rest)
      = (.ok (its.foldl applyAttrItem a), rest) := by
  induction its generalizing a with
  | nil => simp [readNoteAttributesLoop]
  | cons it its ih =>
    cases it <;> rename_i ts <;>
      (simp [attrItemEvents, attrTag, attrTexts, readNoteAttributesLoop, applyAttrItem]
       split
       all_goals rename_i w rest2 hrt
       all_goals rw [readTextUntilEnclosing_spec] at hrt
       · simp only [Prod.mk.injEq, Except.ok.injEq] at hrt
         obtain ⟨rfl, rfl⟩ := hrt
         exact ih _
       · simp at hrt)

theorem readDatetimeUntilEnclosing_ok (tag : String) (ts : List String)
    (rest : List XmlEvent) (v : Int)
    (hv : parseEnexDatetime ((textValue ts).getD "") = .ok v) :
    readDatetimeUntilEnclosing tag (ts.map XmlEvent.characters ++ XmlEvent.endElement tag :: rest)
      = (.ok (some v), rest) := by
  simp [readDatetimeUntilEnclosing, readTextUntilEnclosing_spec, hv]

/-- One `read_note` call on a well-formed note body consumes exactly the
body and the closing tag, and returns the fold of the field assignments
over the body in document order. -/
theorem readNoteLoop_spec (items : List NoteItem) (n : Note) (rest : List XmlEvent)
    (h : validItems items = true) :
    readNoteLoop n (items.flatMap noteItemEvents ++ XmlEvent.endElement "note" :: rest)
      = (.ok (items.foldl applyItem n), rest) := by
  induction items generalizing n with
  | nil => simp [readNoteLoop]
  | cons it items ih =>
    simp only [validItems, List.all_cons, Bool.and_eq_true] at h
    have h2 : validItems items = true := h.2
    cases it
    case title ts =>
      simp [noteItemEvents, readNoteLoop, applyItem]
      split
      all_goals rename_i w rest2 hrt
      all_goals rw [readTextUntilEnclosing_spec] at hrt
      · simp only [Prod.mk.injEq, Except.ok.injEq] at hrt
        obtain ⟨rfl, rfl⟩ := hrt
        exact ih _ h2
      · simp at hrt
    case content ts =>
      simp [noteItemEvents, readNoteLoop, applyItem]
      split
      all_goals rename_i w rest2 hrt
      all_goals rw [readTextUntilEnclosing_spec] at hrt
      · simp only [Prod.mk.injEq, Except.ok.injEq] at hrt
        obtain ⟨rfl, rfl⟩ := hrt
        exact ih _ h2
      · simp at hrt
    case created ts =>
      obtain ⟨v, hv⟩ := parseOk_exists (by simpa [validNoteItem] using h.1)
      simp [noteItemEvents, readNoteLoop, applyItem, hv, Except.toOption]
      split
      all_goals rename_i w rest2 hrt
      all_goals rw [readDatetimeUntilEnclosing_ok _ _ _ v hv] at hrt
      · simp only [Prod.mk.injEq, Except.ok.injEq] at hrt
        obtain ⟨rfl, rfl⟩ := hrt
        exact ih _ h2
      · simp at hrt
    case updated ts =>
      obtain ⟨v, hv⟩ := parseOk_exists (by simpa [validNoteItem] using h.1)
      simp [noteItemEvents, readNoteLoop, applyItem, hv, Except.toOption]
      split
      all_goals rename_i w rest2 hrt
      all_goals rw [readDatetimeUntilEnclosing_ok _ _ _ v hv] at hrt
      · simp only [Prod.mk.injEq, Except.ok.injEq] at hrt
        obtain ⟨rfl, rfl⟩ := hrt
        exact ih _ h2
      · simp at hrt
    case tag ts =>
      simp [noteItemEvents, readNoteLoop, applyItem]
      split
      all_goals rename_i w rest2 hrt
      all_goals rw [readTextUntilEnclosing_spec] at hrt
      · simp only [Prod.mk.injEq, Except.ok.injEq] at hrt
        obtain ⟨rfl, rfl⟩ := hrt
        exact ih _ h2
      · simp at hrt
    case attrs its =>
      simp [noteItemEvents, readNoteLoop, applyItem, attrsValue]
      split
      all_goals rename_i w rest2 hrt
      all_goals rw [readNoteAttributesLoop_spec] at hrt
      · simp only [Prod.mk.injEq, Except.ok.injEq] at hrt
        obtain ⟨rfl, rfl⟩ := hrt
        exact ih _ h2
      · simp at hrt
    case resource payload =>
      have hp : payload.all (fun e => !isResourceClose e) = true := by
        simpa [validNoteItem] using h.1
      simp [noteItemEvents, readNoteLoop, applyItem]
      split
      all_goals rename_i w rest2 hrt
      all_goals rw [consumeResource_spec _ _ hp] at hrt
      · simp only [Prod.mk.injEq] at hrt
        obtain ⟨-, rfl⟩ := hrt
        exact ih _ h2
      · simp at hrt

theorem readNote_spec (items : List NoteItem) (rest : List XmlEvent)
    (h : validItems items = true) :
    readNote (items.flatMap noteItemEvents ++ XmlEvent.endElement "note" :: rest)
      = (.ok (noteValue items), rest) :=
  readNoteLoop_spec items Note.default rest h

/-!
## Iterator-level behaviour
-/

theorem nexts_done (l : List XmlEvent) (k : Nat) :
    nexts ⟨.done, l⟩ k = List.replicate k none := by
  induction k with
  | zero => rfl
  | succ k ih =>
    simp [nexts, EnexParser.next, nextHelper, ih, List.replicate]

theorem nexts_enExport (notes : List (List NoteItem)) (k : Nat)
    (h : ∀ b ∈ notes, validItems b = true) :
    nexts ⟨.enExport, notes.flatMap noteEvents
        ++ [XmlEvent.endElement "en-export", XmlEvent.endDocument]⟩ (notes.length + (k + 1))
      = notes.map (fun b => some (.ok (noteValue b))) ++ List.replicate (k + 1) none := by
  induction notes generalizing k with
  | nil =>
    simp only [List.flatMap_nil, List.nil_append, List.length_nil, List.map_nil, Nat.zero_add]
    have hrepl : List.replicate (k + 1) (none : Option (Except Error Note))
        = none :: List.replicate k none := rfl
    rw [hrepl]
    simp [nexts, EnexParser.next, nextHelper, nextHelperEnExport,
      readStartElementUntilEnclosing, consumeEndDocument, nexts_done]
  | cons b bs ih =>
    have hb : validItems b = true := h b (List.mem_cons_self _ _)
    have hbs : ∀ x ∈ bs, validItems x = true := fun x hx => h x (List.mem_cons_of_mem _ hx)
    have hlen : (b :: bs).length + (k + 1) = (bs.length + (k + 1)) + 1 := by
      simp only [List.length_cons]
      omega
    rw [hlen]
    simp only [List.flatMap_cons, noteEvents, List.cons_append, List.append_assoc,
      List.singleton_append]
    rw [nexts]
    simp only [EnexParser.next, nextHelper, nextHelperEnExport, readStartElementUntilEnclosing]
    rw [readNote_spec b _ hb]
    simp only [List.map_cons, List.cons_append]
    simp only [reduceIte]
    exact congrArg _ (ih k hbs)

/-- C1: for every valid input document with N note elements the parser
yields exactly the N note records in document order, then signals
end-of-input, and every further request also signals end-of-input (here:
the first N + 1 + k iterator results are the N records followed by k + 1
`none`s, for every k). -/
theorem c1_yields_n_records_then_eoi_idempotent (notes : List (List NoteItem))
    (h : ∀ b ∈ notes, validItems b = true) (k : Nat) :
    nexts ⟨.initial, docEvents notes⟩ (notes.length + (k + 1))
      = notes.map (fun b => some (.ok (noteValue b))) ++ List.replicate (k + 1) none := by
  have hstep : (⟨.initial, docEvents notes⟩ : EnexParser).next
      = (⟨.enExport, notes.flatMap noteEvents
          ++ [XmlEvent.endElement "en-export", XmlEvent.endDocument]⟩ : EnexParser).next := by
    simp [EnexParser.next, nextHelper, docEvents, consumeStartDocument, consumeStartElement]
  have hn : notes.length + (k + 1) = (notes.length + k) + 1 := rfl
  have hsame : nexts ⟨.initial, docEvents notes⟩ (notes.length + (k + 1))
      = nexts ⟨.enExport, notes.flatMap noteEvents
          ++ [XmlEvent.endElement "en-export", XmlEvent.endDocument]⟩ (notes.length + (k + 1)) := by
    rw [hn, nexts, nexts, hstep]
  rw [hsame]
  exact nexts_enExport notes k h

/-- Witness for C1 at a one-note document and two extra requests. -/
theorem c1_witness :
    nexts ⟨.initial, docEvents [[NoteItem.title ["foo"]]]⟩ 3
      = [some (.ok { title := some "foo", content := none, created := none, updated := none,
                     tags := [], attributes := NoteAttributes.default }), none, none] := by
  have h := c1_yields_n_records_then_eoi_idempotent [[NoteItem.title ["foo"]]] (by decide) 1
  simpa [noteValue, applyItem, textValue, Note.default, List.replicate] using h

/-!
## Field-preservation lemmas for the fold semantics
-/

/-- Whether an attribute child element assigns `author`. -/
def setsAuthor : AttrItem → Bool
  | .author _ => true
  | _ => false

/-- Whether an attribute child element assigns `source`. -/
def setsSource : AttrItem → Bool
  | .source _ => true
  | _ => false

/-- Whether an attribute child element assigns `source_url`. -/
def setsSourceUrl : AttrItem → Bool
  | .sourceUrl _ => true
  | _ => false

/-- Whether an attribute child element assigns `latitude`. -/
def setsLatitude : AttrItem → Bool
  | .latitude _ => true
  | _ => false

/-- Whether an attribute child element assigns `longitude`. -/
def setsLongitude : AttrItem → Bool
  | .longitude _ => true
  | _ => false

/-- Whether an attribute child element assigns `altitude`. -/
def setsAltitude : AttrItem → Bool
  | .altitude _ => true
  | _ => false

theorem validItems_append {xs ys : List NoteItem} (hx : validItems xs = true)
    (hy : validItems ys = true) : validItems (xs ++ ys) = true := by
  simp only [validItems, List.all_append, Bool.and_eq_true]
  exact ⟨hx, hy⟩

theorem validItems_cons {it : NoteItem} {xs : List NoteItem}
    (hi : validNoteItem it = true) (hx : validItems xs = true) :
    validItems (it :: xs) = true := by
  simp only [validItems, List.all_cons, Bool.and_eq_true]
  exact ⟨hi, hx⟩

theorem foldl_applyItem_title (items : List NoteItem) (n : Note)
    (h : items.all (fun it => !setsTitle it) = true) :
    (items.foldl applyItem n).title = n.title := by
  induction items generalizing n with
  | nil => rfl
  | cons it items ih =>
    simp only [List.all_cons, Bool.and_eq_true, Bool.not_eq_true'] at h
    simp only [List.foldl_cons]
    rw [ih _ (by simpa using h.2)]
    cases it <;> simp_all [setsTitle, applyItem]

theorem foldl_applyItem_content (items : List NoteItem) (n : Note)
    (h : items.all (fun it => !setsContent it) = true) :
    (items.foldl applyItem n).content = n.content := by
  induction items generalizing n with
  | nil => rfl
  | cons it items ih =>
    simp only [List.all_cons, Bool.and_eq_true, Bool.not_eq_true'] at h
    simp only [List.foldl_cons]
    rw [ih _ (by simpa using h.2)]
    cases it <;> simp_all [setsContent, applyItem]

theorem foldl_applyItem_created (items : List NoteItem) (n : Note)
    (h : items.all (fun it => !setsCreated it) = true) :
    (items.foldl applyItem n).created = n.created := by
  induction items generalizing n with
  | nil => rfl
  | cons it items ih =>
    simp only [List.all_cons, Bool.and_eq_true, Bool.not_eq_true'] at h
    simp only [List.foldl_cons]
    rw [ih _ (by simpa using h.2)]
    cases it <;> simp_all [setsCreated, applyItem]

theorem foldl_applyItem_updated (items : List NoteItem) (n : Note)
    (h : items.all (fun it => !setsUpdated it) = true) :
    (items.foldl applyItem n).updated = n.updated := by
  induction items generalizing n with
  | nil => rfl
  | cons it items ih =>
    simp only [List.all_cons, Bool.and_eq_true, Bool.not_eq_true'] at h
    simp only [List.foldl_cons]
    rw [ih _ (by simpa using h.2)]
    cases it <;> simp_all [setsUpdated, applyItem]

theorem foldl_applyItem_attributes (items : List NoteItem) (n : Note)
    (h : items.all (fun it => !setsAttrs it) = true) :
    (items.foldl applyItem n).attributes = n.attributes := by
  induction items generalizing n with
  | nil => rfl
  | cons it items ih =>
    simp only [List.all_cons, Bool.and_eq_true, Bool.not_eq_true'] at h
    simp only [List.foldl_cons]
    rw [ih _ (by simpa using h.2)]
    cases it <;> simp_all [setsAttrs, applyItem]

theorem foldl_applyItem_tags (items : List NoteItem) (n : Note) :
    (items.foldl applyItem n).tags = n.tags ++ tagTexts items := by
  induction items generalizing n with
  | nil => simp [tagTexts]
  | cons it items ih =>
    cases it <;> simp [List.foldl_cons, applyItem, tagTexts, ih, List.append_assoc]

theorem foldl_applyAttrItem_author (items : List AttrItem) (a : NoteAttributes)
    (h : items.all (fun it => !setsAuthor it) = true) :
    (items.foldl applyAttrItem a).author = a.author := by
  induction items generalizing a with
  | nil => rfl
  | cons it items ih =>
    simp only [List.all_cons, Bool.and_eq_true, Bool.not_eq_true'] at h
    simp only [List.foldl_cons]
    rw [ih _ (by simpa using h.2)]
    cases it <;> simp_all [setsAuthor, applyAttrItem]

theorem foldl_applyAttrItem_source (items : List AttrItem) (a : NoteAttributes)
    (h : items.all (fun it => !setsSource it) = true) :
    (items.foldl applyAttrItem a).source = a.source := by
  induction items generalizing a with
  | nil => rfl
  | cons it items ih =>
    simp only [List.all_cons, Bool.and_eq_true, Bool.not_eq_true'] at h
    simp only [List.foldl_cons]
    rw [ih _ (by simpa using h.2)]
    cases it <;> simp_all [setsSource, applyAttrItem]

theorem foldl_applyAttrItem_source_url (items : List AttrItem) (a : NoteAttributes)
    (h : items.all (fun it => !setsSourceUrl it) = true) :
    (items.foldl applyAttrItem a).source_url = a.source_url := by
  induction items generalizing a with
  | nil => rfl
  | cons it items ih =>
    simp only [List.all_cons, Bool.and_eq_true, Bool.not_eq_true'] at h
    simp only [List.foldl_cons]
    rw [ih _ (by simpa using h.2)]
    cases it <;> simp_all [setsSourceUrl, applyAttrItem]

theorem foldl_applyAttrItem_latitude (items : List AttrItem) (a : NoteAttributes)
    (h : items.all (fun it => !setsLatitude it) = true) :
    (items.foldl applyAttrItem a).latitude = a.latitude := by
  induction items generalizing a with
  | nil => rfl
  | cons it items ih =>
    simp only [List.all_cons, Bool.and_eq_true, Bool.not_eq_true'] at h
    simp only [List.foldl_cons]
    rw [ih _ (by simpa using h.2)]
    cases it <;> simp_all [setsLatitude, applyAttrItem]

theorem foldl_applyAttrItem_longitude (items : List AttrItem) (a : NoteAttributes)
    (h : items.all (fun it => !setsLongitude it) = true) :
    (items.foldl applyAttrItem a).longitude = a.longitude := by
  induction items generalizing a with
  | nil => rfl
  | cons it items ih =>
    simp only [List.all_cons, Bool.and_eq_true, Bool.not_eq_true'] at h
    simp only [List.foldl_cons]
    rw [ih _ (by simpa using h.2)]
    cases it <;> simp_all [setsLongitude, applyAttrItem]

theorem foldl_applyAttrItem_altitude (items : List AttrItem) (a : NoteAttributes)
    (h : items.all (fun it => !setsAltitude it) = true) :
    (items.foldl applyAttrItem a).altitude = a.altitude := by
  induction items generalizing a with
  | nil => rfl
  | cons it items ih =>
    simp only [List.all_cons, Bool.and_eq_true, Bool.not_eq_true'] at h
    simp only [List.foldl_cons]
    rw [ih _ (by simpa using h.2)]
    cases it <;> simp_all [setsAltitude, applyAttrItem]

/-- C4: in every note in which a singular field element (title, content,
created or updated) occurs, the yielded record holds the value of the last
occurrence in document order: writing the field element after an arbitrary
valid prefix (which may contain earlier occurrences), followed by a valid
suffix with no further occurrence of that field, the parse succeeds and the
record's field equals that last element's value. -/
theorem c4_last_write_wins_singular_fields (pre post : List NoteItem)
    (rest : List XmlEvent) (hpre : validItems pre = true)
    (hpost : validItems post = true) :
    (∀ ts, post.all (fun it => !setsTitle it) = true →
      readNote ((pre ++ NoteItem.title ts :: post).flatMap noteItemEvents
          ++ XmlEvent.endElement "note" :: rest)
        = (.ok (noteValue (pre ++ NoteItem.title ts :: post)), rest)
      ∧ (noteValue (pre ++ NoteItem.title ts :: post)).title = textValue ts)
    ∧ (∀ ts, post.all (fun it => !setsContent it) = true →
      readNote ((pre ++ NoteItem.content ts :: post).flatMap noteItemEvents
          ++ XmlEvent.endElement "note" :: rest)
        = (.ok (noteValue (pre ++ NoteItem.content ts :: post)), rest)
      ∧ (noteValue (pre ++ NoteItem.content ts :: post)).content = textValue ts)
    ∧ (∀ ts, parseOk ((textValue ts).getD "") = true →
      post.all (fun it => !setsCreated it) = true →
      readNote ((pre ++ NoteItem.created ts :: post).flatMap noteItemEvents
          ++ XmlEvent.endElement "note" :: rest)
        = (.ok (noteValue (pre ++ NoteItem.created ts :: post)), rest)
      ∧ (noteValue (pre ++ NoteItem.created ts :: post)).created
          = (parseEnexDatetime ((textValue ts).getD "")).toOption)
    ∧ (∀ ts, parseOk ((textValue ts).getD "") = true →
      post.all (fun it => !setsUpdated it) = true →
      readNote ((pre ++ NoteItem.updated ts :: post).flatMap noteItemEvents
          ++ XmlEvent.endElement "note" :: rest)
        = (.ok (noteValue (pre ++ NoteItem.updated ts :: post)), rest)
      ∧ (noteValue (pre ++ NoteItem.updated ts :: post)).updated
          = (parseEnexDatetime ((textValue ts).getD "")).toOption) := by
  refine ⟨fun ts hp => ?_, fun ts hp => ?_, fun ts hts hp => ?_, fun ts hts hp => ?_⟩
  · refine ⟨readNote_spec _ _ (validItems_append hpre (validItems_cons rfl hpost)), ?_⟩
    have hd : noteValue (pre ++ NoteItem.title ts :: post)
        = post.foldl applyItem (applyItem (noteValue pre) (NoteItem.title ts)) := by
      simp [noteValue, List.foldl_append]
    rw [hd, foldl_applyItem_title post _ hp]
    rfl
  · refine ⟨readNote_spec _ _ (validItems_append hpre (validItems_cons rfl hpost)), ?_⟩
    have hd : noteValue (pre ++ NoteItem.content ts :: post)
        = post.foldl applyItem (applyItem (noteValue pre) (NoteItem.content ts)) := by
      simp [noteValue, List.foldl_append]
    rw [hd, foldl_applyItem_content post _ hp]
    rfl
  · refine ⟨readNote_spec _ _ (validItems_append hpre
      (validItems_cons (by simpa [validNoteItem] using hts) hpost)), ?_⟩
    have hd : noteValue (pre ++ NoteItem.created ts :: post)
        = post.foldl applyItem (applyItem (noteValue pre) (NoteItem.created ts)) := by
      simp [noteValue, List.foldl_append]
    rw [hd, foldl_applyItem_created post _ hp]
    rfl
  · refine ⟨readNote_spec _ _ (validItems_append hpre
      (validItems_cons (by simpa [validNoteItem] using hts) hpost)), ?_⟩
    have hd : noteValue (pre ++ NoteItem.updated ts :: post)
        = post.foldl applyItem (applyItem (noteValue pre) (NoteItem.updated ts)) := by
      simp [noteValue, List.foldl_append]
    rw [hd, foldl_applyItem_updated post _ hp]
    rfl

/-- Witness for C4: two `title` elements "A" then "B" yield title "B". -/
theorem c4_witness :
    (noteValue [NoteItem.title ["A"], NoteItem.title ["B"]]).title = some "B" := by
  have h := (c4_last_write_wins_singular_fields [NoteItem.title ["A"]] [] []
    (by decide) (by decide)).1 ["B"] (by decide)
  simpa [textValue] using h.2

/-- C5: for every valid note body the yielded record's tags sequence is
exactly the text of each non-empty `tag` element in document order,
duplicates preserved (`tagTexts` is that projection). -/
theorem c5_tags_in_document_order_no_dedup (items : List NoteItem)
    (rest : List XmlEvent) (h : validItems items = true) :
    readNote (items.flatMap noteItemEvents ++ XmlEvent.endElement "note" :: rest)
      = (.ok (noteValue items), rest)
    ∧ (noteValue items).tags = tagTexts items := by
  refine ⟨readNote_spec items rest h, ?_⟩
  simpa [noteValue, Note.default] using foldl_applyItem_tags items Note.default

/-- Witness for C5: tags "x", "y", "x" yield exactly ["x","y","x"]. -/
theorem c5_witness :
    (noteValue [NoteItem.tag ["x"], NoteItem.tag ["y"], NoteItem.tag ["x"]]).tags
      = ["x", "y", "x"] := by
  have h := c5_tags_in_document_order_no_dedup
    [NoteItem.tag ["x"], NoteItem.tag ["y"], NoteItem.tag ["x"]] [] (by decide)
  rw [h.2]
  decide

/-- C9: a valid note body with no `note-attributes` element yields a record
(not an error) whose attributes value has every field absent. -/
theorem c9_missing_attributes_all_absent (items : List NoteItem)
    (rest : List XmlEvent) (h : validItems items = true)
    (hna : items.all (fun it => !setsAttrs it) = true) :
    readNote (items.flatMap noteItemEvents ++ XmlEvent.endElement "note" :: rest)
      = (.ok (noteValue items), rest)
    ∧ (noteValue items).attributes
        = { author := none, source_url := none, source := none,
            latitude := none, longitude := none, altitude := none } := by
  refine ⟨readNote_spec items rest h, ?_⟩
  simpa [noteValue, Note.default, NoteAttributes.default] using
    foldl_applyItem_attributes items Note.default hna

/-- Witness for C9 at a note with only a title element. -/
theorem c9_witness :
    (noteValue [NoteItem.title ["t"]]).attributes
      = { author := none, source_url := none, source := none,
          latitude := none, longitude := none, altitude := none } :=
  (c9_missing_attributes_all_absent [NoteItem.title ["t"]] [] (by decide) (by decide)).2

/-- C10: with two `note-attributes` blocks the second block's parsed result
replaces the attributes value as a whole: the record's attributes equal the
second block's value alone, and any attribute field the second block does
not set is absent in the yielded record regardless of the first block. -/
theorem c10_second_attributes_block_overwrites_wholesale
    (pre mid post : List NoteItem) (a1 a2 : List AttrItem) (rest : List XmlEvent)
    (hpre : validItems pre = true) (hmid : validItems mid = true)
    (hpost : validItems post = true)
    (hpostA : post.all (fun it => !setsAttrs it) = true) :
    readNote ((pre ++ NoteItem.attrs a1 :: (mid ++ NoteItem.attrs a2 :: post)).flatMap
        noteItemEvents ++ XmlEvent.endElement "note" :: rest)
      = (.ok (noteValue (pre ++ NoteItem.attrs a1 :: (mid ++ NoteItem.attrs a2 :: post))), rest)
    ∧ (noteValue (pre ++ NoteItem.attrs a1 :: (mid ++ NoteItem.attrs a2 :: post))).attributes
        = attrsValue a2
    ∧ (a2.all (fun it => !setsAuthor it) = true → (attrsValue a2).author = none)
    ∧ (a2.all (fun it => !setsSource it) = true → (attrsValue a2).source = none)
    ∧ (a2.all (fun it => !setsSourceUrl it) = true → (attrsValue a2).source_url = none)
    ∧ (a2.all (fun it => !setsLatitude it) = true → (attrsValue a2).latitude = none)
    ∧ (a2.all (fun it => !setsLongitude it) = true → (attrsValue a2).longitude = none)
    ∧ (a2.all (fun it => !setsAltitude it) = true → (attrsValue a2).altitude = none) := by
  have hall : validItems (pre ++ NoteItem.attrs a1 :: (mid ++ NoteItem.attrs a2 :: post)) = true :=
    validItems_append hpre (validItems_cons rfl (validItems_append hmid
      (validItems_cons rfl hpost)))
  refine ⟨readNote_spec _ _ hall, ?_, fun ha => ?_, fun ha => ?_, fun ha => ?_,
    fun ha => ?_, fun ha => ?_, fun ha => ?_⟩
  · have hd : noteValue (pre ++ NoteItem.attrs a1 :: (mid ++ NoteItem.attrs a2 :: post))
        = post.foldl applyItem (applyItem
            (mid.foldl applyItem (applyItem (noteValue pre) (NoteItem.attrs a1)))
            (NoteItem.attrs a2)) := by
      simp [noteValue, List.foldl_append]
    rw [hd, foldl_applyItem_attributes post _ hpostA]
    rfl
  · simpa [attrsValue, NoteAttributes.default] using foldl_applyAttrItem_author a2 _ ha
  · simpa [attrsValue, NoteAttributes.default] using foldl_applyAttrItem_source a2 _ ha
  · simpa [attrsValue, NoteAttributes.default] using foldl_applyAttrItem_source_url a2 _ ha
  · simpa [attrsValue, NoteAttributes.default] using foldl_applyAttrItem_latitude a2 _ ha
  · simpa [attrsValue, NoteAttributes.default] using foldl_applyAttrItem_longitude a2 _ ha
  · simpa [attrsValue, NoteAttributes.default] using foldl_applyAttrItem_altitude a2 _ ha

/-- Witness for C10: first block sets author, second sets source; the
record's attributes are the second block's value and its author is
absent. -/
theorem c10_witness :
    (noteValue [NoteItem.attrs [AttrItem.author ["alice"]],
        NoteItem.attrs [AttrItem.source ["web"]]]).attributes
      = attrsValue [AttrItem.source ["web"]]
    ∧ (attrsValue [AttrItem.source ["web"]]).author = none := by
  have h := c10_second_attributes_block_overwrites_wholesale [] [] []
    [AttrItem.author ["alice"]] [AttrItem.source ["web"]] []
    (by decide) (by decide) (by decide) (by decide)
  exact ⟨by simpa using h.2.1, h.2.2.1 (by decide)⟩

/-- C6: the timestamp reader parses `20181226T083916Z` (compact form with
the literal `Z` suffix) to the instant of 2018-12-26 08:39:16 UTC; the
stored `DateTime<Local>` denotes exactly this instant (local conversion
changes only the representation). -/
theorem c6_timestamp_parsed_to_utc_instant (rest : List XmlEvent) :
    readDatetimeUntilEnclosing "created"
        (XmlEvent.characters "20181226T083916Z" :: XmlEvent.endElement "created" :: rest)
      = (.ok (some (utcInstant 2018 12 26 8 39 16)), rest) := by
  have hp : parseEnexDatetime "20181226T083916Z" = .ok (utcInstant 2018 12 26 8 39 16) := by
    decide
  simp [readDatetimeUntilEnclosing, readTextUntilEnclosing, hp]

/-- Witness for C6 at the empty remainder. -/
theorem c6_witness :
    readDatetimeUntilEnclosing "created"
        [XmlEvent.characters "20181226T083916Z", XmlEvent.endElement "created"]
      = (.ok (some (utcInstant 2018 12 26 8 39 16)), []) :=
  c6_timestamp_parsed_to_utc_instant []

/-- C7: over a text-only element body the timestamp reader fails with the
typed timestamp error exactly when the accumulated text does not parse
under the compact grammar; an empty element body is itself a parse failure
(absence is not "no timestamp"), malformed text such as "not-a-date" is a
timestamp error, and a successful read never yields an absent field. -/
theorem c7_timestamp_error_cases (tag : String) (rest : List XmlEvent) :
    readDatetimeUntilEnclosing tag (XmlEvent.endElement tag :: rest) = (.error .chrono, rest)
    ∧ readDatetimeUntilEnclosing tag
        (XmlEvent.characters "not-a-date" :: XmlEvent.endElement tag :: rest)
      = (.error .chrono, rest)
    ∧ (∀ ts v, parseEnexDatetime ((textValue ts).getD "") = .ok v →
        readDatetimeUntilEnclosing tag
            (ts.map XmlEvent.characters ++ XmlEvent.endElement tag :: rest)
          = (.ok (some v), rest))
    ∧ (∀ ts, parseEnexDatetime ((textValue ts).getD "") = .error .chrono →
        readDatetimeUntilEnclosing tag
            (ts.map XmlEvent.characters ++ XmlEvent.endElement tag :: rest)
          = (.error .chrono, rest))
    ∧ ∀ l, (readDatetimeUntilEnclosing tag l).1 ≠ .ok none := by
  refine ⟨?_, ?_, ?_, ?_, ?_⟩
  · have hp : parseEnexDatetime "" = .error .chrono := by decide
    simp [readDatetimeUntilEnclosing, readTextUntilEnclosing, hp]
  · have hp : parseEnexDatetime "not-a-date" = .error .chrono := by decide
    simp [readDatetimeUntilEnclosing, readTextUntilEnclosing, hp]
  · intro ts v hv
    exact readDatetimeUntilEnclosing_ok tag ts rest v hv
  · intro ts hv
    simp [readDatetimeUntilEnclosing, readTextUntilEnclosing_spec, hv]
  · intro l
    rw [readDatetimeUntilEnclosing]
    split
    next t r h => split <;> simp
    next e r h => simp

/-- Witness for C7 on a `created` element. -/
theorem c7_witness :
    readDatetimeUntilEnclosing "created" [XmlEvent.endElement "created"] = (.error .chrono, [])
    ∧ (readDatetimeUntilEnclosing "created"
        [XmlEvent.characters "not-a-date", XmlEvent.endElement "created"]).1 ≠ .ok none := by
  refine ⟨(c7_timestamp_error_cases "created" []).1, ?_⟩
  exact (c7_timestamp_error_cases "created" []).2.2.2.2
    [XmlEvent.characters "not-a-date", XmlEvent.endElement "created"]

/-- C8: the text reader accumulates zero or more consecutive text events,
concatenated in order (`textValue`), until the matching close; with no text
before the close it returns `none` (absent, not the empty string); any
non-text non-matching-close event met meanwhile is a structural error. -/
theorem c8_read_text_accumulates_until_close (tag : String) (ts : List String)
    (rest : List XmlEvent) :
    readTextUntilEnclosing tag (ts.map XmlEvent.characters ++ XmlEvent.endElement tag :: rest)
      = (.ok (textValue ts), rest)
    ∧ textValue [] = none
    ∧ (∀ e l2, (∀ s, e ≠ XmlEvent.characters s) → e ≠ XmlEvent.endElement tag →
        readTextUntilEnclosing tag (ts.map XmlEvent.characters ++ e :: l2)
          = (.error (.unexpectedEvent "expected text" e), l2)) :=
  ⟨readTextUntilEnclosing_spec tag ts rest, rfl,
    fun e l2 hc he => readTextUntilEnclosing_err tag ts e l2 hc he⟩

/-- Witness for C8: split text "ab","cd" concatenates to "abcd"; a stray
element open mid-text is a structural error. -/
theorem c8_witness :
    readTextUntilEnclosing "title"
        [XmlEvent.characters "ab", XmlEvent.characters "cd", XmlEvent.endElement "title"]
      = (.ok (some "abcd"), [])
    ∧ readTextUntilEnclosing "title" [XmlEvent.characters "ab", XmlEvent.startElement "x"]
      = (.error (.unexpectedEvent "expected text" (XmlEvent.startElement "x")), []) := by
  constructor
  · have h := (c8_read_text_accumulates_until_close "title" ["ab", "cd"] []).1
    simp only [List.map_cons, List.map_nil, List.nil_append, List.cons_append] at h
    rw [h]
    decide
  · exact (c8_read_text_accumulates_until_close "title" ["ab"] []).2.2
      (XmlEvent.startElement "x") [] (fun s hs => XmlEvent.noConfusion hs)
      (fun hs => XmlEvent.noConfusion hs)

/-- C2 counterexample: a `resource` whose payload contains a nested element
also named `resource` is NOT skipped in its entirety.  `consume_resource`
stops at the first close named `resource`, so on
`<resource><resource/></resource><title>t</title>` the parse fails with a
structural error at the outer `</resource>` instead of yielding a record
with title "t" as the claim requires. -/
theorem c2_nested_resource_counterexample :
    readNote [XmlEvent.startElement "resource", XmlEvent.startElement "resource",
        XmlEvent.endElement "resource", XmlEvent.endElement "resource",
        XmlEvent.startElement "title", XmlEvent.characters "t", XmlEvent.endElement "title",
        XmlEvent.endElement "note"]
      = (.error (.unexpectedEvent "in <note>" (XmlEvent.endElement "resource")),
         [XmlEvent.startElement "title", XmlEvent.characters "t", XmlEvent.endElement "title",
          XmlEvent.endElement "note"]) := by
  simp [readNote, readNoteLoop, consumeResource]

/-- C2 amended: a `resource` element whose payload contains no element
close named `resource` (arbitrary other nesting allowed) is skipped in its
entirety: the in-progress record is unaffected and parsing resumes at the
sibling following the (first, matching) `</resource>`. -/
theorem c2_resource_skip_amended (payload rest : List XmlEvent) (n : Note)
    (h : payload.all (fun e => !isResourceClose e) = true) :
    consumeResource (payload ++ XmlEvent.endElement "resource" :: rest) = (.ok (), rest)
    ∧ readNoteLoop n (XmlEvent.startElement "resource" :: payload
        ++ XmlEvent.endElement "resource" :: rest)
      = readNoteLoop n rest := by
  have hc := consumeResource_spec payload rest h
  refine ⟨hc, ?_⟩
  rw [readNoteLoop.eq_def]
  simp only [List.cons_append, String.reduceEq, reduceIte]
  split
  next w rest2 hrt =>
    rw [hc] at hrt
    simp only [Prod.mk.injEq] at hrt
    rw [hrt.2]
  next err rest2 hrt =>
    rw [hc] at hrt
    simp at hrt

/-- Witness for C2 (amended) at a resource holding one nested `data`
element, inside a note that then closes. -/
theorem c2_witness :
    readNoteLoop Note.default [XmlEvent.startElement "resource", XmlEvent.startElement "data",
        XmlEvent.characters "x", XmlEvent.endElement "data", XmlEvent.endElement "resource",
        XmlEvent.endElement "note"]
      = readNoteLoop Note.default [XmlEvent.endElement "note"] := by
  have h := c2_resource_skip_amended [XmlEvent.startElement "data", XmlEvent.characters "x",
    XmlEvent.endElement "data"] [XmlEvent.endElement "note"] Note.default (by decide)
  simpa using h.2

/-- C3 counterexample: after the parser has yielded an error, subsequent
requests do NOT behave as exhausted: on a document whose first note opens a
bogus tag, the first three requests yield errors (reading further events
each time) and the fourth yields a full note record. -/
theorem c3_error_then_more_records_counterexample :
    nexts ⟨.initial, [XmlEvent.startDocument, XmlEvent.startElement "en-export",
        XmlEvent.startElement "note", XmlEvent.startElement "bogus",
        XmlEvent.endElement "bogus", XmlEvent.endElement "note",
        XmlEvent.startElement "note", XmlEvent.startElement "title",
        XmlEvent.characters "u", XmlEvent.endElement "title", XmlEvent.endElement "note",
        XmlEvent.endElement "en-export", XmlEvent.endDocument]⟩ 4
      = [some (.error (.unexpectedElement "bogus")),
         some (.error (.unexpectedEvent "in <en-export>" (XmlEvent.endElement "bogus"))),
         some (.error (.unexpectedEvent "in <en-export>" (XmlEvent.endElement "note"))),
         some (.ok { title := some "u", content := none, created := none, updated := none,
                     tags := [], attributes := NoteAttributes.default })] := by
  simp [nexts, EnexParser.next, nextHelper, nextHelperEnExport, consumeStartDocument,
    consumeStartElement, readStartElementUntilEnclosing, readNote, readNoteLoop,
    readTextUntilEnclosing, Note.default, NoteAttributes.default]

/-- C3 amended: every error is yielded to the caller as one error result,
but the iterator is not fused: an error never moves the machine to the
terminal state (so later requests keep consuming events and can yield
further results, as the counterexample shows).  An element open with an
unrecognized tag inside a note body does terminate that record's parse
with a structural error. -/
theorem c3_error_keeps_machine_running_amended :
    (∀ s l e s2 l2, nextHelper s l = (.error e, s2, l2) → s2 ≠ .done)
    ∧ (∀ n tag rest,
        tag ∉ ["title", "content", "created", "updated", "tag", "note-attributes", "resource"] →
        readNoteLoop n (XmlEvent.startElement tag :: rest)
          = (.error (.unexpectedElement tag), rest)) := by
  constructor
  · have hE : ∀ l e s2 l2, nextHelperEnExport l = (.error e, s2, l2) → s2 = .enExport := by
      intro l e s2 l2 h
      unfold nextHelperEnExport at h
      split at h
      · split_ifs at h
        · split at h <;> simp_all
        · simp_all
      · split at h <;> simp_all
      · simp_all
    intro s l e s2 l2 h
    cases s
    case initial =>
      simp only [nextHelper] at h
      split at h
      · split at h
        · rw [hE _ _ _ _ h]
          simp
        · simp only [Prod.mk.injEq] at h
          obtain ⟨-, rfl, -⟩ := h
          simp
      · simp only [Prod.mk.injEq] at h
        obtain ⟨-, rfl, -⟩ := h
        simp
    case enExport =>
      simp only [nextHelper] at h
      rw [hE _ _ _ _ h]
      simp
    case done => simp [nextHelper] at h
  · intro n tag rest htag
    simp only [List.mem_cons, List.not_mem_nil, or_false, not_or] at htag
    obtain ⟨h1, h2, h3, h4, h5, h6, h7⟩ := htag
    rw [readNoteLoop.eq_def]
    simp [h1, h2, h3, h4, h5, h6, h7]

/-- Witness for C3 (amended): a concrete error step stays in the
`EnExport` state, and a bogus tag in a note body errors. -/
theorem c3_witness :
    (EnexParserState.enExport ≠ EnexParserState.done)
    ∧ readNoteLoop Note.default [XmlEvent.startElement "bogus"]
      = (.error (.unexpectedElement "bogus"), []) := by
  constructor
  · exact c3_error_keeps_machine_running_amended.1 .enExport [XmlEvent.characters "x"]
      (.unexpectedEvent "in <en-export>" (XmlEvent.characters "x")) .enExport [] rfl
  · exact c3_error_keeps_machine_running_amended.2 Note.default "bogus" [] (by decide)

end Enex2mf
